import Mathlib

/-!
Verification of the RQuiztube ingestion and spaced-repetition core.

Shallow embedding of the repository's TypeScript sources:
  - `SpacedRepetitionService.calculateNextReview` / `calculateQuality`
    (scheduler service file, SM-2 style update and quality derivation);
  - `YouTubeService.getRawTranscript`, `validateVideoForProcessing` and the
    transcript-truncation step of `prepareOptimizedContentForClaude`
    (src/server/services/openai.ts);
  - `AnthropicService.generateQuestions` response validation;
  - `MemStorage` (`createVideo`, `createQuestions`, `getDueReviews`) and the
    `POST /api/videos/analyze` route of src/server/routes.ts.

JavaScript numbers are modelled as exact rationals (`ℚ`).  A JS number that
may be `NaN` or `undefined` is modelled as `Option ℚ` with `none` standing
for the non-finite value; arithmetic on it propagates `none` exactly as JS
arithmetic propagates `NaN`.
-/

namespace RQuiztube

/-- JS `Math.round` on a finite number: round half toward positive infinity. -/
def jsRound (x : ℚ) : Int := Int.floor (x + 1/2)

/-- Multiplication where the left operand may be `undefined`/`NaN` (`none`):
`undefined * b` is `NaN`, modelled as `none`. -/
def jsMulUndef : Option ℚ → ℚ → Option ℚ
  | none, _ => none
  | some a, b => some (a * b)

/-- `Math.round` lifted to a possibly-`NaN` argument: `Math.round(NaN)` is `NaN`. -/
def jsRoundOpt : Option ℚ → Option ℚ
  | none => none
  | some x => some ((jsRound x : Int) : ℚ)

/-- Result record of `SpacedRepetitionService.calculateNextReview` (the
`nextReview` date is `now + interval` days and is not modelled separately).
`interval` is `Option ℚ` because the source can produce `NaN` there. -/
structure ReviewUpdate where
  easeFactor : ℚ
  repetitions : ℕ
  interval : Option ℚ
deriving DecidableEq, Repr

/-- Embedding of `SpacedRepetitionService.calculateNextReview`.

The source declares `let interval: number;` and, in the branch for a second
or later successful repetition, computes
`interval = Math.round(interval * newEaseFactor)` — reading the variable it
is about to assign, whose value at that point is `undefined` (the function
has no previous-interval parameter).  `undefined * newEaseFactor` is `NaN`,
modelled here by `jsMulUndef none newEaseFactor`. -/
def calculateNextReview (easeFactor : ℚ) (repetitions : ℕ) (quality : ℚ) :
    ReviewUpdate :=
  if quality < 3 then
    { easeFactor := easeFactor, repetitions := 0, interval := some 1 }
  else
    let newEaseFactor :=
      max 1.3 (easeFactor + (0.1 - (5 - quality) * (0.08 + (5 - quality) * 0.02)))
    let interval : Option ℚ :=
      if repetitions = 0 then some 1
      else if repetitions = 1 then some 6
      else jsRoundOpt (jsMulUndef none newEaseFactor)
    { easeFactor := newEaseFactor, repetitions := repetitions + 1,
      interval := interval }

/-- Embedding of `SpacedRepetitionService.calculateQuality`.  The source uses
`Math.random()` for incorrect answers; the random draw is made an explicit
argument `randomDraw` (the value `Math.random()` returned). -/
def calculateQuality (isCorrect : Bool) (responseTime : ℚ) (randomDraw : ℚ) :
    ℕ :=
  if !isCorrect then
    (if randomDraw < 0.5 then 0 else 1)
  else if responseTime ≤ 10 then 5
  else if responseTime ≤ 20 then 4
  else if responseTime ≤ 45 then 3
  else 3

/-- One scheduler step over a full card state: feed the previous update's
ease factor and repetition count back into `calculateNextReview`. -/
def reviewStep (st : ReviewUpdate) (q : ℚ) : ReviewUpdate :=
  calculateNextReview st.easeFactor st.repetitions q

/-- The SM-2 interval recurrence exactly as the spec states it (§4.4):
`1` when `reps' = 1`, `6` when `reps' = 2`, else
`round(previousInterval * ease')`.  Written from the spec's words, for
comparison with the source's `calculateNextReview`. -/
def spec_sm2_interval (previousInterval : ℚ) (newRepetitions : ℕ)
    (newEaseFactor : ℚ) : Int :=
  if newRepetitions = 1 then 1
  else if newRepetitions = 2 then 6
  else jsRound (previousInterval * newEaseFactor)

lemma ease_step_floor (e : ℚ) (r : ℕ) (q : ℚ) (h : 1.3 ≤ e) :
    1.3 ≤ (calculateNextReview e r q).easeFactor := by
  unfold calculateNextReview
  split
  · simpa using h
  · exact le_max_left _ _

/-- C5: starting from any ease factor at or above 1.3, every sequence of
scheduler updates (qualities in `[0, 5]`) keeps the ease factor at or
above 1.3. -/
theorem easeFactor_floor (qs : List ℚ) (st : ReviewUpdate)
    (h : 1.3 ≤ st.easeFactor) (hq : ∀ q ∈ qs, 0 ≤ q ∧ q ≤ 5) :
    1.3 ≤ (qs.foldl reviewStep st).easeFactor := by
  induction qs generalizing st with
  | nil => simpa using h
  | cons q rest ih =>
      simp only [List.foldl_cons]
      exact ih _ (ease_step_floor _ _ _ h)
        (fun x hx => hq x (List.mem_cons_of_mem _ hx))

theorem easeFactor_floor_witness :
    1.3 ≤ (([0, 5, 2] : List ℚ).foldl reviewStep
      { easeFactor := 2.5, repetitions := 0, interval := some 1 }).easeFactor :=
  easeFactor_floor [0, 5, 2] _ (by norm_num) (by norm_num)

/-- C6: a quality below 3 resets the card regardless of prior state:
repetitions become 0 and the interval becomes 1, while the ease factor is
left unchanged. -/
theorem lapse_resets_state (e : ℚ) (r : ℕ) (q : ℚ) (h : q < 3) :
    calculateNextReview e r q =
      { easeFactor := e, repetitions := 0, interval := some 1 } := by
  unfold calculateNextReview
  simp [h]

theorem lapse_resets_state_witness :
    calculateNextReview 2.5 7 2 =
      { easeFactor := 2.5, repetitions := 0, interval := some 1 } :=
  lapse_resets_state 2.5 7 2 (by norm_num)

/-- C2: running the quality sequence `[5, 5, 4]` from `(ease = 2.5, reps = 0)`
through the source's `calculateNextReview` yields intervals `1` and `6` for
the first two reviews, but the third review's interval is `NaN` (`none`):
the source reads its local `interval` variable before assigning it and has
no previous-interval parameter.  The spec's recurrence (`spec_sm2_interval`)
would instead give `round(6 * 2.7) = 16`. -/
theorem calculateNextReview_third_review_interval_NaN :
    calculateNextReview 2.5 0 5 =
      { easeFactor := 2.6, repetitions := 1, interval := some 1 } ∧
    calculateNextReview 2.6 1 5 =
      { easeFactor := 2.7, repetitions := 2, interval := some 6 } ∧
    calculateNextReview 2.7 2 4 =
      { easeFactor := 2.7, repetitions := 3, interval := none } ∧
    spec_sm2_interval 6 3 2.7 = 16 := by
  refine ⟨?_, ?_, ?_, ?_⟩ <;>
    simp only [calculateNextReview, spec_sm2_interval, jsRound, jsRoundOpt,
      jsMulUndef] <;>
    norm_num [ReviewUpdate.mk.injEq]

/-- C8 counterexample: for an incorrect answer with identical latency, the
derived quality depends on the `Math.random()` draw, so the same response
signal does not always map to the same value: draw `0.4` gives quality `0`
while draw `0.6` gives quality `1`. -/
theorem calculateQuality_incorrect_nondeterministic :
    calculateQuality false 30 0.4 ≠ calculateQuality false 30 0.6 := by
  unfold calculateQuality
  norm_num

/-- C8 (amended): the quality derivation is deterministic for correct
answers — independent of the random draw, mapping latency 10 or below to 5,
latency in (10, 20] to 4, and any latency above 20 to 3 — while an
incorrect answer maps to a low quality in {0, 1} chosen by the random draw
(not a fixed value). -/
theorem calculateQuality_amended :
    (∀ t r r' : ℚ, calculateQuality true t r = calculateQuality true t r') ∧
    (∀ t r : ℚ, t ≤ 10 → calculateQuality true t r = 5) ∧
    (∀ t r : ℚ, 10 < t → t ≤ 20 → calculateQuality true t r = 4) ∧
    (∀ t r : ℚ, 20 < t → calculateQuality true t r = 3) ∧
    (∀ t r : ℚ, calculateQuality false t r = 0 ∨ calculateQuality false t r = 1) := by
  refine ⟨fun t r r' => rfl, fun t r ht => ?_, fun t r ht1 ht2 => ?_,
    fun t r ht => ?_, fun t r => ?_⟩
  · simp [calculateQuality, ht]
  · simp [calculateQuality, ht2, not_le.mpr ht1]
  · have h10 : ¬ t ≤ 10 := not_le.mpr (lt_trans (by norm_num) ht)
    have h20 : ¬ t ≤ 20 := not_le.mpr ht
    simp [calculateQuality, h10, h20]
  · by_cases h : r < 0.5
    · exact Or.inl (by simp [calculateQuality, h])
    · exact Or.inr (by simp [calculateQuality, h])

theorem calculateQuality_amended_witness :
    calculateQuality true 30 0.1 = calculateQuality true 30 0.9 ∧
    calculateQuality true 5 0 = 5 ∧
    calculateQuality true 15 0 = 4 ∧
    calculateQuality true 30 0 = 3 ∧
    (calculateQuality false 30 0.2 = 0 ∨ calculateQuality false 30 0.2 = 1) :=
  ⟨calculateQuality_amended.1 30 0.1 0.9,
   calculateQuality_amended.2.1 5 0 (by norm_num),
   calculateQuality_amended.2.2.1 15 0 (by norm_num) (by norm_num),
   calculateQuality_amended.2.2.2.1 30 0 (by norm_num),
   calculateQuality_amended.2.2.2.2 30 0.2⟩

/-- Minimum viable transcript length (`MIN_TRANSCRIPT_THRESHOLD` in
`YouTubeService.getRawTranscript`). -/
def MIN_TRANSCRIPT_THRESHOLD : ℕ := 1000

/-- Embedding of `YouTubeService.getRawTranscript`.  The source iterates over
a fixed list of strategy methods; each call either throws or returns a
string or null.  `methodResults` is the list of those outcomes in strategy
order, with `none` for a throw or null result.  The loop returns the first
result whose length reaches the threshold, skips any other outcome, and
returns null (`none`) when the list is exhausted; the description-based
strategy is not in the list. -/
def getRawTranscript : List (Option String) → Option String
  | [] => none
  | result :: rest =>
    match result with
    | some s =>
        if MIN_TRANSCRIPT_THRESHOLD ≤ s.length then some s
        else getRawTranscript rest
    | none => getRawTranscript rest

/-- C3: the transcript chain returns the output of the first strategy whose
result is at least 1000 characters — every earlier strategy's string result
was shorter than the threshold — and when every strategy fails or is too
short the chain returns nothing (so it never returns anything that is not a
strategy output, in particular no description fallback). -/
theorem getRawTranscript_first_long_result (methodResults : List (Option String)) :
    (∀ t, getRawTranscript methodResults = some t →
      MIN_TRANSCRIPT_THRESHOLD ≤ t.length ∧
      ∃ i : ℕ, ∃ hi : i < methodResults.length,
        methodResults.get ⟨i, hi⟩ = some t ∧
        ∀ j (hj : j < methodResults.length), j < i →
          ∀ s, methodResults.get ⟨j, hj⟩ = some s →
            s.length < MIN_TRANSCRIPT_THRESHOLD) ∧
    ((∀ o ∈ methodResults, ∀ s, o = some s →
        s.length < MIN_TRANSCRIPT_THRESHOLD) →
      getRawTranscript methodResults = none) := by
  induction methodResults with
  | nil =>
      exact ⟨fun t h => by simp [getRawTranscript] at h, fun _ => rfl⟩
  | cons r rest ih =>
      constructor
      · intro t ht
        cases r with
        | none =>
            have ht' : getRawTranscript rest = some t := by
              simpa [getRawTranscript] using ht
            obtain ⟨hlen, i, hi, hget, hbefore⟩ := ih.1 t ht'
            refine ⟨hlen, i + 1, Nat.succ_lt_succ hi, by simpa using hget, ?_⟩
            intro j hj hji s hs
            cases j with
            | zero => simp at hs
            | succ j' =>
                have hj' : j' < rest.length := Nat.lt_of_succ_lt_succ hj
                exact hbefore j' hj' (Nat.lt_of_succ_lt_succ hji) s
                  (by simpa using hs)
        | some s0 =>
            by_cases hlen0 : MIN_TRANSCRIPT_THRESHOLD ≤ s0.length
            · have heq : some s0 = some t := by
                simpa [getRawTranscript, hlen0] using ht
              cases Option.some.inj heq
              refine ⟨hlen0, 0, Nat.succ_pos _, rfl, ?_⟩
              intro j hj hji
              exact absurd hji (Nat.not_lt_zero j)
            · have ht' : getRawTranscript rest = some t := by
                simpa [getRawTranscript, hlen0] using ht
              obtain ⟨hlen, i, hi, hget, hbefore⟩ := ih.1 t ht'
              refine ⟨hlen, i + 1, Nat.succ_lt_succ hi, by simpa using hget, ?_⟩
              intro j hj hji s hs
              cases j with
              | zero =>
                  have hss : s0 = s := by simpa using hs
                  exact hss ▸ Nat.lt_of_not_le hlen0
              | succ j' =>
                  have hj' : j' < rest.length := Nat.lt_of_succ_lt_succ hj
                  exact hbefore j' hj' (Nat.lt_of_succ_lt_succ hji) s
                    (by simpa using hs)
      · intro hall
        cases r with
        | none =>
            simpa [getRawTranscript] using
              ih.2 (fun o ho s hs => hall o (List.mem_cons_of_mem _ ho) s hs)
        | some s0 =>
            have h0 : s0.length < MIN_TRANSCRIPT_THRESHOLD :=
              hall (some s0) (List.mem_cons_self _ _) s0 rfl
            simp only [getRawTranscript, if_neg (Nat.not_le.mpr h0)]
            exact ih.2 (fun o ho s hs => hall o (List.mem_cons_of_mem _ ho) s hs)

set_option maxRecDepth 10000 in
theorem getRawTranscript_first_long_result_witness :
    getRawTranscript [none, some "ab"] = none ∧
    MIN_TRANSCRIPT_THRESHOLD ≤ (String.mk (List.replicate 1000 'a')).length :=
  ⟨(getRawTranscript_first_long_result [none, some "ab"]).2 (by
      intro o ho s hs
      fin_cases ho
      · exact Option.noConfusion hs
      · cases Option.some.inj hs
        decide),
   ((getRawTranscript_first_long_result
        [none, some "ab", some (String.mk (List.replicate 1000 'a'))]).1
      (String.mk (List.replicate 1000 'a')) (by decide)).1⟩

/-- The distinct rejection reasons produced by
`YouTubeService.validateVideoForProcessing`, one per early-return branch, in
source order.  The payloads carry the values interpolated into the source's
message strings. -/
inductive RejectionReason where
  | videoTooShort (durationSeconds : ℕ)
  | noTranscriptAvailable
  | transcriptTooShort (cleanLength : ℕ)
  | notEducational
  | contentPreparationFailed
deriving DecidableEq, Repr

/-- Result of `validateVideoForProcessing` (`VideoValidationResult` in the
source): either a rejection with its reason, or the validated payload. -/
inductive VideoValidationResult where
  | invalid (rejectionReason : RejectionReason)
  | valid (cleanTranscript : String) (claudeOptimizedContent : String)
      (category : String)
deriving DecidableEq, Repr

/-- Embedding of `YouTubeService.validateVideoForProcessing`, given that the
metadata lookup (`getVideoInfo`) succeeded.  `durationSeconds` is the parsed
duration, `rawTranscriptResult` the outcome of `getRawTranscript` (`none`
for no transcript).  The private helpers `cleanTranscript`,
`hasEducationalContent`, `prepareOptimizedContentForClaude` and
`categorizeContent` are passed as function arguments so the theorem
quantifies over their behaviour; the gate's check order and short-circuit
structure is what is embedded here. -/
def validateVideoForProcessing (title description : String)
    (durationSeconds : ℕ) (rawTranscriptResult : Option String)
    (cleanFn : String → String)
    (hasEducationalContent : String → String → String → Bool)
    (prepareContent : String → Option String)
    (categorizeContent : String → String → String) : VideoValidationResult :=
  if durationSeconds < 180 then
    .invalid (.videoTooShort durationSeconds)
  else
    match rawTranscriptResult with
    | none => .invalid .noTranscriptAvailable
    | some rawTranscript =>
      let cleanTranscript := cleanFn rawTranscript
      if cleanTranscript.length < 1000 then
        .invalid (.transcriptTooShort cleanTranscript.length)
      else if !(hasEducationalContent title description cleanTranscript) then
        .invalid .notEducational
      else
        match prepareContent cleanTranscript with
        | none => .invalid .contentPreparationFailed
        | some claudeOptimizedContent =>
            .valid cleanTranscript claudeOptimizedContent
              (categorizeContent title description)

/-- C7: a candidate shorter than 180 seconds is rejected with the duration
reason — never the transcript-length or topic reason — whatever its title,
description, transcript fetch outcome, or the behaviour of the cleaning,
topic-classification and content-preparation helpers: the duration check is
the first check and short-circuits the rest of the gate. -/
theorem short_duration_rejected_with_duration_reason
    (title description : String) (durationSeconds : ℕ)
    (rawTranscriptResult : Option String) (cleanFn : String → String)
    (hasEducationalContent : String → String → String → Bool)
    (prepareContent : String → Option String)
    (categorizeContent : String → String → String)
    (h : durationSeconds < 180) :
    validateVideoForProcessing title description durationSeconds
        rawTranscriptResult cleanFn hasEducationalContent prepareContent
        categorizeContent =
      .invalid (.videoTooShort durationSeconds) := by
  unfold validateVideoForProcessing
  simp [h]

theorem short_duration_rejected_with_duration_reason_witness :
    validateVideoForProcessing "t" "d" 90 (some "x") id
        (fun _ _ _ => true) (fun s => some s) (fun _ _ => "general") =
      .invalid (.videoTooShort 90) :=
  short_duration_rejected_with_duration_reason "t" "d" 90 (some "x") id
    (fun _ _ _ => true) (fun s => some s) (fun _ _ => "general")
    (by norm_num)

/-- Index of the last occurrence of `c`, or `none` — auxiliary for the JS
`String.prototype.lastIndexOf`. -/
def lastIndexOfNat (c : Char) : List Char → Option ℕ
  | [] => none
  | x :: xs =>
    match lastIndexOfNat c xs with
    | some r => some (r + 1)
    | none => if x = c then some 0 else none

/-- JS `truncated.lastIndexOf(c)`: the index of the last occurrence of `c`,
or `-1` when `c` does not occur. -/
def lastIndexOf (c : Char) (l : List Char) : Int :=
  match lastIndexOfNat c l with
  | some r => (r : Int)
  | none => -1

/-- `maxTranscriptLength` in `prepareOptimizedContentForClaude`. -/
def maxTranscriptLength : ℕ := 6000

/-- The source's `lastSentenceEnd`:
`Math.max(truncated.lastIndexOf('.'), truncated.lastIndexOf('!'), truncated.lastIndexOf('?'))`. -/
def lastSentenceEnd (truncated : List Char) : Int :=
  max (lastIndexOf '.' truncated)
    (max (lastIndexOf '!' truncated) (lastIndexOf '?' truncated))

/-- Embedding of the transcript-length optimization step inside
`YouTubeService.prepareOptimizedContentForClaude` (the computation of
`optimizedTranscript`, the transcript portion of the shaped payload).  The
sentence-boundary cut is used only when the boundary lies past
`maxTranscriptLength * 0.8 = 4800`; otherwise the source appends `'...'` to
a hard 6000-character cut. -/
def optimizeTranscript (cleanTranscript : List Char) : List Char :=
  if maxTranscriptLength < cleanTranscript.length then
    let truncated := cleanTranscript.take maxTranscriptLength
    if (4800 : Int) < lastSentenceEnd truncated then
      truncated.take ((lastSentenceEnd truncated + 1).toNat)
    else
      truncated ++ [ '.', '.', '.' ]
  else cleanTranscript

lemma lastIndexOfNat_replicate_of_ne (c a : Char) (h : ¬ a = c) (n : ℕ) :
    lastIndexOfNat c (List.replicate n a) = none := by
  induction n with
  | zero => rfl
  | succ n ih => simp [List.replicate_succ, lastIndexOfNat, ih, h]

lemma lastIndexOfNat_lt_length {c : Char} {l : List Char} {r : ℕ}
    (h : lastIndexOfNat c l = some r) : r < l.length := by
  induction l generalizing r with
  | nil => exact absurd h (by simp [lastIndexOfNat])
  | cons x xs ih =>
      rw [lastIndexOfNat] at h
      cases hx : lastIndexOfNat c xs with
      | some r' =>
          rw [hx] at h
          cases Option.some.inj h
          exact Nat.succ_lt_succ (ih hx)
      | none =>
          rw [hx] at h
          by_cases hxc : x = c
          · rw [if_pos hxc] at h
            cases Option.some.inj h
            exact Nat.succ_pos _
          · rw [if_neg hxc] at h
            exact absurd h (by simp)

lemma lastIndexOfNat_get {c : Char} {l : List Char} {r : ℕ}
    (h : lastIndexOfNat c l = some r) (hr : r < l.length) :
    l.get ⟨r, hr⟩ = c := by
  induction l generalizing r with
  | nil => exact absurd h (by simp [lastIndexOfNat])
  | cons x xs ih =>
      rw [lastIndexOfNat] at h
      cases hx : lastIndexOfNat c xs with
      | some r' =>
          rw [hx] at h
          cases Option.some.inj h
          exact ih hx (lastIndexOfNat_lt_length hx)
      | none =>
          rw [hx] at h
          by_cases hxc : x = c
          · rw [if_pos hxc] at h
            cases Option.some.inj h
            simpa using hxc
          · rw [if_neg hxc] at h
            exact absurd h (by simp)

lemma lastIndexOfNat_eq_none {c : Char} {l : List Char}
    (h : lastIndexOfNat c l = none) :
    ∀ j (hj : j < l.length), ¬ l.get ⟨j, hj⟩ = c := by
  induction l with
  | nil => intro j hj; exact absurd hj (Nat.not_lt_zero j)
  | cons x xs ih =>
      rw [lastIndexOfNat] at h
      cases hx : lastIndexOfNat c xs with
      | some r' => rw [hx] at h; exact absurd h (by simp)
      | none =>
          rw [hx] at h
          by_cases hxc : x = c
          · rw [if_pos hxc] at h; exact absurd h (by simp)
          · intro j hj
            cases j with
            | zero => simpa using hxc
            | succ j' => exact ih hx j' (Nat.lt_of_succ_lt_succ hj)

lemma lastIndexOfNat_maximal {c : Char} {l : List Char} {r : ℕ}
    (h : lastIndexOfNat c l = some r) :
    ∀ j (hj : j < l.length), r < j → ¬ l.get ⟨j, hj⟩ = c := by
  induction l generalizing r with
  | nil => intro j hj; exact absurd hj (Nat.not_lt_zero j)
  | cons x xs ih =>
      rw [lastIndexOfNat] at h
      cases hx : lastIndexOfNat c xs with
      | some r' =>
          rw [hx] at h
          cases Option.some.inj h
          intro j hj hrj
          cases j with
          | zero => exact absurd hrj (Nat.not_lt_zero _)
          | succ j' =>
              exact ih hx j' (Nat.lt_of_succ_lt_succ hj)
                (Nat.lt_of_succ_lt_succ hrj)
      | none =>
          rw [hx] at h
          by_cases hxc : x = c
          · rw [if_pos hxc] at h
            cases Option.some.inj h
            intro j hj hrj
            cases j with
            | zero => exact absurd hrj (Nat.not_lt_zero _)
            | succ j' => exact lastIndexOfNat_eq_none hx j' (Nat.lt_of_succ_lt_succ hj)
          · rw [if_neg hxc] at h
            exact absurd h (by simp)

lemma lastIndexOfNat_of_lastIndexOf_nonneg {c : Char} {l : List Char}
    {b : Int} (h : lastIndexOf c l = b) (hb : 0 ≤ b) :
    lastIndexOfNat c l = some b.toNat := by
  cases hx : lastIndexOfNat c l with
  | none =>
      simp only [lastIndexOf, hx] at h
      exfalso
      omega
  | some r =>
      simp only [lastIndexOf, hx] at h
      have hr : r = b.toNat := by omega
      rw [hr]

lemma get_ne_of_lastIndexOf_lt {c : Char} {l : List Char} {j : ℕ}
    (hj : j < l.length) (h : lastIndexOf c l < (j : Int)) :
    ¬ l.get ⟨j, hj⟩ = c := by
  cases hx : lastIndexOfNat c l with
  | none => exact lastIndexOfNat_eq_none hx j hj
  | some r =>
      simp only [lastIndexOf, hx] at h
      exact lastIndexOfNat_maximal hx j hj (by exact_mod_cast h)

lemma exists_boundary_get {tr : List Char} {b : Int} (hb0 : 0 ≤ b)
    (c : Char) (hc : lastIndexOf c tr = b) :
    ∃ hlt : b.toNat < tr.length, tr.get ⟨b.toNat, hlt⟩ = c := by
  have hx := lastIndexOfNat_of_lastIndexOf_nonneg hc hb0
  exact ⟨lastIndexOfNat_lt_length hx, lastIndexOfNat_get hx _⟩

/-- C9 (amended): when a cleaned transcript exceeds the 6000-character
window, the shaped transcript ends at the last sentence boundary within the
first 6000 characters only when that boundary lies past 80 percent of the
window (index above 4800): there the output is the prefix up to and
including the boundary character (a `.`, `!` or `?`, with no later boundary
in the window).  When the boundary is at index 4800 or below — or there is
none — the source instead emits a hard 6000-character cut with `...`
appended. -/
theorem optimizeTranscript_truncation (t : List Char)
    (hlen : maxTranscriptLength < t.length) :
    ((4800 : Int) < lastSentenceEnd (t.take maxTranscriptLength) →
      optimizeTranscript t =
        (t.take maxTranscriptLength).take
          ((lastSentenceEnd (t.take maxTranscriptLength) + 1).toNat) ∧
      ∃ hb : (lastSentenceEnd (t.take maxTranscriptLength)).toNat <
          (t.take maxTranscriptLength).length,
        ((t.take maxTranscriptLength).get
            ⟨(lastSentenceEnd (t.take maxTranscriptLength)).toNat, hb⟩ = '.' ∨
          (t.take maxTranscriptLength).get
            ⟨(lastSentenceEnd (t.take maxTranscriptLength)).toNat, hb⟩ = '!' ∨
          (t.take maxTranscriptLength).get
            ⟨(lastSentenceEnd (t.take maxTranscriptLength)).toNat, hb⟩ = '?') ∧
        (optimizeTranscript t).length =
          (lastSentenceEnd (t.take maxTranscriptLength)).toNat + 1 ∧
        ∀ j (hj : j < (t.take maxTranscriptLength).length),
          (lastSentenceEnd (t.take maxTranscriptLength)).toNat < j →
          ¬ ((t.take maxTranscriptLength).get ⟨j, hj⟩ = '.' ∨
              (t.take maxTranscriptLength).get ⟨j, hj⟩ = '!' ∨
              (t.take maxTranscriptLength).get ⟨j, hj⟩ = '?')) ∧
    (lastSentenceEnd (t.take maxTranscriptLength) ≤ 4800 →
      optimizeTranscript t =
        t.take maxTranscriptLength ++ [ '.', '.', '.' ]) := by
  constructor
  · intro h48
    have hb0 : (0 : Int) ≤ lastSentenceEnd (t.take maxTranscriptLength) :=
      le_trans (by norm_num) (le_of_lt h48)
    have hopt : optimizeTranscript t =
        (t.take maxTranscriptLength).take
          ((lastSentenceEnd (t.take maxTranscriptLength) + 1).toNat) := by
      unfold optimizeTranscript
      rw [if_pos hlen, if_pos h48]
    have hattain : lastIndexOf '.' (t.take maxTranscriptLength) =
          lastSentenceEnd (t.take maxTranscriptLength) ∨
        lastIndexOf '!' (t.take maxTranscriptLength) =
          lastSentenceEnd (t.take maxTranscriptLength) ∨
        lastIndexOf '?' (t.take maxTranscriptLength) =
          lastSentenceEnd (t.take maxTranscriptLength) := by
      rcases max_choice (lastIndexOf '.' (t.take maxTranscriptLength))
          (max (lastIndexOf '!' (t.take maxTranscriptLength))
            (lastIndexOf '?' (t.take maxTranscriptLength))) with h | h
      · exact Or.inl h.symm
      · rcases max_choice (lastIndexOf '!' (t.take maxTranscriptLength))
            (lastIndexOf '?' (t.take maxTranscriptLength)) with h' | h'
        · exact Or.inr (Or.inl (by rw [lastSentenceEnd, h, h']))
        · exact Or.inr (Or.inr (by rw [lastSentenceEnd, h, h']))
    have hget : ∃ hb : (lastSentenceEnd (t.take maxTranscriptLength)).toNat <
        (t.take maxTranscriptLength).length,
        ((t.take maxTranscriptLength).get
            ⟨(lastSentenceEnd (t.take maxTranscriptLength)).toNat, hb⟩ = '.' ∨
          (t.take maxTranscriptLength).get
            ⟨(lastSentenceEnd (t.take maxTranscriptLength)).toNat, hb⟩ = '!' ∨
          (t.take maxTranscriptLength).get
            ⟨(lastSentenceEnd (t.take maxTranscriptLength)).toNat, hb⟩ = '?') := by
      rcases hattain with hc | hc | hc
      · obtain ⟨hlt, hg⟩ := exists_boundary_get hb0 _ hc
        exact ⟨hlt, Or.inl hg⟩
      · obtain ⟨hlt, hg⟩ := exists_boundary_get hb0 _ hc
        exact ⟨hlt, Or.inr (Or.inl hg)⟩
      · obtain ⟨hlt, hg⟩ := exists_boundary_get hb0 _ hc
        exact ⟨hlt, Or.inr (Or.inr hg)⟩
    obtain ⟨hlt, hg⟩ := hget
    refine ⟨hopt, hlt, hg, ?_, ?_⟩
    · rw [hopt, List.length_take]
      omega
    · intro j hj hjgt hor
      have hjb : lastSentenceEnd (t.take maxTranscriptLength) < (j : Int) := by
        omega
      rcases hor with h | h | h
      · exact get_ne_of_lastIndexOf_lt hj
          (lt_of_le_of_lt (le_max_left _ _) hjb) h
      · exact get_ne_of_lastIndexOf_lt hj
          (lt_of_le_of_lt (le_trans (le_max_left _ _) (le_max_right _ _)) hjb) h
      · exact get_ne_of_lastIndexOf_lt hj
          (lt_of_le_of_lt (le_trans (le_max_right _ _) (le_max_right _ _)) hjb) h
  · intro hle
    unfold optimizeTranscript
    rw [if_pos hlen, if_neg (not_lt.mpr hle)]

lemma lastIndexOf_eq_of_some {c : Char} {l : List Char} {r : ℕ}
    (h : lastIndexOfNat c l = some r) : lastIndexOf c l = (r : Int) := by
  rw [lastIndexOf, h]

lemma lastIndexOf_eq_of_none {c : Char} {l : List Char}
    (h : lastIndexOfNat c l = none) : lastIndexOf c l = -1 := by
  rw [lastIndexOf, h]

lemma lastIndexOfNat_append_some (c : Char) (l1 l2 : List Char) (r : ℕ)
    (h : lastIndexOfNat c l2 = some r) :
    lastIndexOfNat c (l1 ++ l2) = some (r + l1.length) := by
  induction l1 with
  | nil => simpa using h
  | cons x l1' ih =>
      rw [List.cons_append, lastIndexOfNat, ih]
      simp only [List.length_cons]
      rfl

lemma lastIndexOfNat_append_none (c : Char) (l1 l2 : List Char)
    (h2 : lastIndexOfNat c l2 = none) :
    lastIndexOfNat c (l1 ++ l2) = lastIndexOfNat c l1 := by
  induction l1 with
  | nil => simpa using h2
  | cons x l1' ih =>
      rw [List.cons_append, lastIndexOfNat, ih, lastIndexOfNat]

/-- C9 counterexample: a 6001-character cleaned transcript whose only
sentence boundary is its first character.  The claim requires the cut at
the nearest sentence boundary preceding the limit (index 0), but the source
emits the hard 6000-character cut with a `...` marker because the boundary
does not lie past index 4800. -/
theorem optimizeTranscript_hard_cut_counterexample :
    lastSentenceEnd (('.' :: List.replicate 6000 'a').take maxTranscriptLength)
      = 0 ∧
    optimizeTranscript ('.' :: List.replicate 6000 'a') =
      ('.' :: List.replicate 6000 'a').take maxTranscriptLength ++
        [ '.', '.', '.' ] := by
  have htake : ('.' :: List.replicate 6000 'a').take maxTranscriptLength =
      '.' :: List.replicate 5999 'a' := by
    have h6 : maxTranscriptLength = 5999 + 1 := by norm_num [maxTranscriptLength]
    rw [h6, List.take_succ_cons, List.take_replicate,
      (by norm_num : min (5999 : ℕ) 6000 = 5999)]
  have hdotNat : lastIndexOfNat '.' ('.' :: List.replicate 5999 'a') = some 0 := by
    rw [lastIndexOfNat,
      lastIndexOfNat_replicate_of_ne '.' 'a' (by decide) 5999]
    rw [if_pos rfl]
  have hbangNat : lastIndexOfNat '!' ('.' :: List.replicate 5999 'a') = none := by
    rw [lastIndexOfNat,
      lastIndexOfNat_replicate_of_ne '!' 'a' (by decide) 5999]
    rw [if_neg (by decide)]
  have hqNat : lastIndexOfNat '?' ('.' :: List.replicate 5999 'a') = none := by
    rw [lastIndexOfNat,
      lastIndexOfNat_replicate_of_ne '?' 'a' (by decide) 5999]
    rw [if_neg (by decide)]
  have hlse : lastSentenceEnd ('.' :: List.replicate 5999 'a') = 0 := by
    rw [lastSentenceEnd, lastIndexOf_eq_of_some hdotNat,
      lastIndexOf_eq_of_none hbangNat, lastIndexOf_eq_of_none hqNat]
    omega
  have hlen : maxTranscriptLength < ('.' :: List.replicate 6000 'a').length := by
    rw [List.length_cons, List.length_replicate]
    norm_num [maxTranscriptLength]
  refine ⟨by rw [htake, hlse], ?_⟩
  have := (optimizeTranscript_truncation ('.' :: List.replicate 6000 'a') hlen).2
  exact this (by rw [htake, hlse]; norm_num)

theorem optimizeTranscript_truncation_witness :
    maxTranscriptLength <
      (List.replicate 5000 'a' ++ '.' :: List.replicate 1500 'b').length ∧
    optimizeTranscript (List.replicate 5000 'a' ++ '.' :: List.replicate 1500 'b') =
      ((List.replicate 5000 'a' ++ '.' :: List.replicate 1500 'b').take
          maxTranscriptLength).take
        ((lastSentenceEnd
            ((List.replicate 5000 'a' ++ '.' :: List.replicate 1500 'b').take
              maxTranscriptLength) + 1).toNat) := by
  have hlen : maxTranscriptLength <
      (List.replicate 5000 'a' ++ '.' :: List.replicate 1500 'b').length := by
    rw [List.length_append, List.length_cons, List.length_replicate,
      List.length_replicate]
    norm_num [maxTranscriptLength]
  have htake : (List.replicate 5000 'a' ++ '.' :: List.replicate 1500 'b').take
      maxTranscriptLength =
      List.replicate 5000 'a' ++ '.' :: List.replicate 999 'b' := by
    rw [List.take_append_eq_append_take, List.take_replicate]
    have h1 : min maxTranscriptLength 5000 = 5000 := by
      norm_num [maxTranscriptLength]
    have h2 : maxTranscriptLength - (List.replicate 5000 'a').length
        = 999 + 1 := by
      rw [List.length_replicate]
      norm_num [maxTranscriptLength]
    rw [h1, h2, List.take_succ_cons, List.take_replicate,
      (by norm_num : min (999 : ℕ) 1500 = 999)]
  have hdotNat : lastIndexOfNat '.'
      (List.replicate 5000 'a' ++ '.' :: List.replicate 999 'b')
      = some 5000 := by
    have hhead : lastIndexOfNat '.' ('.' :: List.replicate 999 'b') = some 0 := by
      rw [lastIndexOfNat,
        lastIndexOfNat_replicate_of_ne '.' 'b' (by decide) 999]
      rw [if_pos rfl]
    rw [lastIndexOfNat_append_some '.' _ _ 0 hhead, List.length_replicate]
  have hbangNat : lastIndexOfNat '!'
      (List.replicate 5000 'a' ++ '.' :: List.replicate 999 'b') = none := by
    have hhead : lastIndexOfNat '!' ('.' :: List.replicate 999 'b') = none := by
      rw [lastIndexOfNat,
        lastIndexOfNat_replicate_of_ne '!' 'b' (by decide) 999]
      rw [if_neg (by decide)]
    rw [lastIndexOfNat_append_none '!' _ _ hhead,
      lastIndexOfNat_replicate_of_ne '!' 'a' (by decide) 5000]
  have hqNat : lastIndexOfNat '?'
      (List.replicate 5000 'a' ++ '.' :: List.replicate 999 'b') = none := by
    have hhead : lastIndexOfNat '?' ('.' :: List.replicate 999 'b') = none := by
      rw [lastIndexOfNat,
        lastIndexOfNat_replicate_of_ne '?' 'b' (by decide) 999]
      rw [if_neg (by decide)]
    rw [lastIndexOfNat_append_none '?' _ _ hhead,
      lastIndexOfNat_replicate_of_ne '?' 'a' (by decide) 5000]
  have hlse : lastSentenceEnd
      (List.replicate 5000 'a' ++ '.' :: List.replicate 999 'b') = 5000 := by
    rw [lastSentenceEnd, lastIndexOf_eq_of_some hdotNat,
      lastIndexOf_eq_of_none hbangNat, lastIndexOf_eq_of_none hqNat]
    omega
  have h48 : (4800 : Int) < lastSentenceEnd
      ((List.replicate 5000 'a' ++ '.' :: List.replicate 1500 'b').take
        maxTranscriptLength) := by
    rw [htake, hlse]
    norm_num
  exact ⟨hlen,
    ((optimizeTranscript_truncation
      (List.replicate 5000 'a' ++ '.' :: List.replicate 1500 'b') hlen).1 h48).1⟩

/-- JS `String.prototype.trim`: strip whitespace from both ends. -/
def jsTrim (s : String) : String :=
  String.mk
    (((s.data.dropWhile Char.isWhitespace).reverse.dropWhile
        Char.isWhitespace).reverse)

/-- JS `parseInt(String(x))` for a finite number `x`: truncation toward
zero. -/
def jsParseIntOfNumber (q : ℚ) : Int :=
  if 0 ≤ q then Int.floor q else Int.ceil q

/-- One entry of the parsed `result.questions` array, as
`AnthropicService.generateQuestions` inspects it.  A missing or falsy
`question`/`explanation`/`difficulty` is the empty string; `options` is
`none` when the field is not an array; `correctAnswer` is `none` when the
field is not a number. -/
structure RawAIQuestion where
  question : String
  options : Option (List String)
  correctAnswer : Option ℚ
  explanation : String
  difficulty : String
deriving DecidableEq, Repr

/-- A question as returned to the caller of `generateQuestions`. -/
structure GeneratedQuestion where
  question : String
  options : List String
  correctAnswer : Int
  explanation : String
  difficulty : String
deriving DecidableEq, Repr

/-- Embedding of the per-entry validation inside
`AnthropicService.generateQuestions`: the structural guard returns `null`
(here `none`) for an invalid entry, otherwise the cleaned question with the
`correctAnswer` clamped by `Math.max(0, Math.min(3, parseInt(...) || 0))`
and a `difficulty` defaulted to `"medium"` when not one of the three
allowed values. -/
def validateQuestion (q : RawAIQuestion) : Option GeneratedQuestion :=
  match q.options, q.correctAnswer with
  | some opts, some ca =>
      if q.question = "" ∨ opts.length ≠ 4 ∨ q.explanation = "" ∨
          q.difficulty = "" then
        none
      else
        some
          { question := jsTrim q.question
            options := opts.map (fun opt => jsTrim opt)
            correctAnswer := max 0 (min 3 (jsParseIntOfNumber ca))
            explanation := jsTrim q.explanation
            difficulty :=
              if q.difficulty = "easy" ∨ q.difficulty = "medium" ∨
                  q.difficulty = "hard"
              then q.difficulty else "medium" }
  | _, _ => none

/-- The validated question list returned by `generateQuestions`:
`result.questions.map(validate).filter(q => q !== null)`. -/
def validatedQuestions (result_questions : List RawAIQuestion) :
    List GeneratedQuestion :=
  result_questions.filterMap validateQuestion

lemma validateQuestion_eq (qq : String) (opts : List String) (ca : ℚ)
    (ee dd : String) :
    validateQuestion ⟨qq, some opts, some ca, ee, dd⟩ =
      (if qq = "" ∨ opts.length ≠ 4 ∨ ee = "" ∨ dd = "" then none
       else some
          { question := jsTrim qq
            options := opts.map (fun opt => jsTrim opt)
            correctAnswer := max 0 (min 3 (jsParseIntOfNumber ca))
            explanation := jsTrim ee
            difficulty :=
              if dd = "easy" ∨ dd = "medium" ∨ dd = "hard" then dd
              else "medium" }) := rfl

lemma validateQuestion_none_options (qq : String) (ca : Option ℚ)
    (ee dd : String) :
    validateQuestion ⟨qq, none, ca, ee, dd⟩ = none := rfl

lemma validateQuestion_none_correctAnswer (qq : String) (opts : List String)
    (ee dd : String) :
    validateQuestion ⟨qq, some opts, none, ee, dd⟩ = none := rfl

/-- C10 counterexample: an entry whose `question` field is the one-space
string `" "` passes the truthiness guard but trims to the empty string, so
the returned question text is empty — the claim's non-empty-text invariant
fails. -/
theorem validatedQuestions_whitespace_question_empty :
    (validatedQuestions
      [{ question := " ", options := some ["a", "b", "c", "d"],
         correctAnswer := some 0, explanation := "e",
         difficulty := "easy" }]).map (fun v => v.question) = [""] := by
  decide

/-- C10 (amended): every question returned by the generation service has
exactly 4 answer options, a `correctAnswer` clamped into `[0, 3]`, and a
difficulty among easy, medium and hard (defaulting to medium); structurally
invalid entries are dropped rather than returned.  Each returned question
stems from an entry whose `question` and `explanation` fields were
non-empty, but the returned text is their trim and so can itself be empty
when the field was whitespace-only. -/
theorem validatedQuestions_wellformed (qs : List RawAIQuestion)
    (v : GeneratedQuestion) (hv : v ∈ validatedQuestions qs) :
    v.options.length = 4 ∧ 0 ≤ v.correctAnswer ∧ v.correctAnswer ≤ 3 ∧
    (v.difficulty = "easy" ∨ v.difficulty = "medium" ∨
      v.difficulty = "hard") ∧
    ∃ raw ∈ qs, validateQuestion raw = some v ∧
      ¬ raw.question = "" ∧ ¬ raw.explanation = "" := by
  obtain ⟨raw, hraw, hval⟩ := List.mem_filterMap.mp hv
  have hval' := hval
  obtain ⟨qq, oo, cc, ee, dd⟩ := raw
  cases oo with
  | none =>
      rw [validateQuestion_none_options] at hval
      exact absurd hval (by simp)
  | some opts =>
      cases cc with
      | none =>
          rw [validateQuestion_none_correctAnswer] at hval
          exact absurd hval (by simp)
      | some ca =>
          rw [validateQuestion_eq] at hval
          by_cases hguard : qq = "" ∨ opts.length ≠ 4 ∨ ee = "" ∨ dd = ""
          · rw [if_pos hguard] at hval
            exact absurd hval (by simp)
          · rw [if_neg hguard] at hval
            push_neg at hguard
            obtain ⟨hq, hlen4, hexp, _⟩ := hguard
            cases Option.some.inj hval
            refine ⟨?_, le_max_left _ _,
              max_le (by norm_num) (min_le_left _ _), ?_,
              ⟨qq, some opts, some ca, ee, dd⟩, hraw, hval', hq, hexp⟩
            · simpa using hlen4
            · by_cases hd : dd = "easy" ∨ dd = "medium" ∨ dd = "hard"
              · show (if _ then dd else "medium") = "easy" ∨ _
                rw [if_pos hd]
                exact hd
              · show (if _ then dd else "medium") = "easy" ∨ _
                rw [if_neg hd]
                exact Or.inr (Or.inl rfl)

theorem validatedQuestions_wellformed_witness :
    ∃ v, v ∈ validatedQuestions
        [⟨"Q", some ["a", "b", "c", "d"], some 7, "E", "odd"⟩] ∧
      (v.options.length = 4 ∧ 0 ≤ v.correctAnswer ∧ v.correctAnswer ≤ 3 ∧
        (v.difficulty = "easy" ∨ v.difficulty = "medium" ∨
          v.difficulty = "hard")) := by
  have hvq : validateQuestion ⟨"Q", some ["a", "b", "c", "d"], some 7, "E", "odd"⟩ =
      some
        { question := jsTrim "Q"
          options := ["a", "b", "c", "d"].map (fun opt => jsTrim opt)
          correctAnswer := max 0 (min 3 (jsParseIntOfNumber 7))
          explanation := jsTrim "E"
          difficulty :=
            if ("odd" : String) = "easy" ∨ ("odd" : String) = "medium" ∨
                ("odd" : String) = "hard"
            then "odd" else "medium" } := by
    rw [validateQuestion_eq, if_neg (by simp)]
  have hlist : validatedQuestions
      [⟨"Q", some ["a", "b", "c", "d"], some 7, "E", "odd"⟩] =
      [{ question := jsTrim "Q"
         options := ["a", "b", "c", "d"].map (fun opt => jsTrim opt)
         correctAnswer := max 0 (min 3 (jsParseIntOfNumber 7))
         explanation := jsTrim "E"
         difficulty :=
           if ("odd" : String) = "easy" ∨ ("odd" : String) = "medium" ∨
               ("odd" : String) = "hard"
           then "odd" else "medium" }] := by
    rw [validatedQuestions, List.filterMap_cons_some hvq,
      List.filterMap_nil validateQuestion]
  have hv : (⟨jsTrim "Q", ["a", "b", "c", "d"].map (fun opt => jsTrim opt),
      max 0 (min 3 (jsParseIntOfNumber 7)), jsTrim "E",
      if ("odd" : String) = "easy" ∨ ("odd" : String) = "medium" ∨
          ("odd" : String) = "hard" then "odd" else "medium"⟩ :
      GeneratedQuestion) ∈ validatedQuestions
      [⟨"Q", some ["a", "b", "c", "d"], some 7, "E", "odd"⟩] := by
    rw [hlist]
    exact List.mem_singleton.mpr rfl
  obtain ⟨h1, h2, h3, h4, _⟩ := validatedQuestions_wellformed _ _ hv
  exact ⟨_, hv, h1, h2, h3, h4⟩

/-- A persisted video row (`Video` in the shared schema; the `processedAt`
and `createdAt` timestamps the store stamps on insert are not modelled). -/
structure Video where
  id : String
  userId : String
  youtubeId : String
  title : String
  channelName : String
  duration : ℕ
  thumbnail : String
  transcript : String
  category : String
deriving DecidableEq, Repr

/-- A persisted question row (`Question` in the shared schema, without its
`createdAt` timestamp). -/
structure Question where
  id : String
  videoId : String
  question : String
  options : List String
  correctAnswer : Int
  explanation : String
  difficulty : String
deriving DecidableEq, Repr

/-- A review-schedule row, restricted to the fields `getDueReviews` reads;
`nextReview` is the `Date` as epoch milliseconds. -/
structure ReviewSchedule where
  id : String
  userId : String
  questionId : String
  nextReview : Int
deriving DecidableEq, Repr

/-- The `MemStorage` state.  JS `Map`s iterate in insertion order, so each
map is modelled as its list of values in insertion order (ids are the map
keys and are generated to be unique); `currentId` backs `generateId`. -/
structure MemStorage where
  videos : List Video
  questions : List Question
  reviewSchedules : List ReviewSchedule
  currentId : ℕ
deriving DecidableEq, Repr

def emptyStorage : MemStorage :=
  { videos := [], questions := [], reviewSchedules := [], currentId := 1 }

/-- `this.questions.get(id)`. -/
def getQuestionById (st : MemStorage) (id : String) : Option Question :=
  st.questions.find? (fun q => q.id == id)

/-- `this.videos.get(id)`. -/
def getVideoById (st : MemStorage) (id : String) : Option Video :=
  st.videos.find? (fun v => v.id == id)

/-- `MemStorage.getVideoQuestions`. -/
def getVideoQuestions (st : MemStorage) (videoId : String) : List Question :=
  st.questions.filter (fun q => q.videoId == videoId)

/-- Embedding of `MemStorage.getDueReviews`: filter the schedule map's
values (insertion order) by owner and dueness, then join each schedule to
its question and that question's video, dropping rows whose question or
video is missing.  `now` (`new Date()` taken inside the source method) is
passed explicitly. -/
def getDueReviews (st : MemStorage) (userId : String) (now : Int) :
    List (ReviewSchedule × Question × Video) :=
  let dueSchedules := st.reviewSchedules.filter
    (fun s => s.userId == userId && decide (s.nextReview ≤ now))
  dueSchedules.filterMap (fun schedule =>
    (getQuestionById st schedule.questionId).bind (fun question =>
      (getVideoById st question.videoId).map (fun video =>
        (schedule, question, video))))

lemma map_filterMap_sublist {α β : Type} (F : α → Option β) (g : β → α)
    (hFg : ∀ a b, F a = some b → g b = a) :
    ∀ l : List α, ((l.filterMap F).map g).Sublist l := by
  intro l
  induction l with
  | nil => simp
  | cons a l ih =>
      cases hFa : F a with
      | none =>
          rw [List.filterMap_cons_none hFa]
          exact List.Sublist.cons a ih
      | some b =>
          rw [List.filterMap_cons_some hFa, List.map_cons, hFg a b hFa]
          exact List.Sublist.cons₂ a ih

/-- C4 (amended): `getDueReviews` returns exactly the owner's schedules
whose `nextReview` is at or before `now`, each joined to its question and
that question's parent video (rows with a missing question or video are
dropped), and the rows come back in the schedule map's insertion order — a
subsequence of the stored order — not sorted by `nextReview`. -/
theorem getDueReviews_characterization (st : MemStorage) (userId : String)
    (now : Int) :
    (∀ r ∈ getDueReviews st userId now,
      r.1.userId = userId ∧ r.1.nextReview ≤ now ∧
      getQuestionById st r.1.questionId = some r.2.1 ∧
      getVideoById st r.2.1.videoId = some r.2.2) ∧
    (∀ s ∈ st.reviewSchedules, s.userId = userId → s.nextReview ≤ now →
      ∀ q, getQuestionById st s.questionId = some q →
        ∀ v, getVideoById st q.videoId = some v →
          (s, q, v) ∈ getDueReviews st userId now) ∧
    ((getDueReviews st userId now).map (fun r => r.1)).Sublist
      st.reviewSchedules := by
  refine ⟨?_, ?_, ?_⟩
  · intro r hr
    obtain ⟨s, hs, hmk⟩ := List.mem_filterMap.mp hr
    obtain ⟨q, hq, hmap⟩ := Option.bind_eq_some.mp hmk
    obtain ⟨v, hv, hrv⟩ := Option.map_eq_some'.mp hmap
    obtain ⟨hsmem, hcond⟩ := List.mem_filter.mp hs
    rw [Bool.and_eq_true, beq_iff_eq, decide_eq_true_eq] at hcond
    rw [← hrv]
    exact ⟨hcond.1, hcond.2, hq, hv⟩
  · intro s hs hu hd q hq v hv
    refine List.mem_filterMap.mpr ⟨s, ?_, ?_⟩
    · exact List.mem_filter.mpr ⟨hs, by
        rw [Bool.and_eq_true, beq_iff_eq, decide_eq_true_eq]
        exact ⟨hu, hd⟩⟩
    · rw [hq, Option.some_bind, hv, Option.map_some']
  · refine List.Sublist.trans
      (map_filterMap_sublist _ _ ?_ _) (List.filter_sublist _)
    intro s r hmk
    obtain ⟨q, _, hmap⟩ := Option.bind_eq_some.mp hmk
    obtain ⟨v, _, hrv⟩ := Option.map_eq_some'.mp hmap
    rw [← hrv]

/-- The concrete store used to exercise `getDueReviews`: one owner with two
due schedules inserted most-recent-due first. -/
def demoStorage : MemStorage :=
  { videos := [⟨"v1", "u", "y1", "T", "C", 300, "th", "tr", "general"⟩]
    questions := [⟨"q1", "v1", "Q", ["a", "b", "c", "d"], 0, "E", "easy"⟩]
    reviewSchedules := [⟨"r1", "u", "q1", 5⟩, ⟨"r2", "u", "q1", 3⟩]
    currentId := 3 }

/-- C4 counterexample: both schedules of `demoStorage` are due at time 10,
and `getDueReviews` returns them in insertion order with `nextReview`
values `[5, 3]` — not in ascending `nextReview` order, so the claimed
most-overdue-first ordering does not hold. -/
theorem getDueReviews_not_sorted_counterexample :
    (getDueReviews demoStorage "u" 10).map (fun r => r.1.nextReview)
      = [5, 3] ∧
    ¬ List.Pairwise (fun a b : Int => a ≤ b)
      ((getDueReviews demoStorage "u" 10).map (fun r => r.1.nextReview)) := by
  refine ⟨by decide, fun h => ?_⟩
  rw [(by decide : (getDueReviews demoStorage "u" 10).map
      (fun r => r.1.nextReview) = [5, 3])] at h
  have := (List.pairwise_cons.mp h).1 3 (by simp)
  omega

theorem getDueReviews_characterization_witness :
    ((⟨"r1", "u", "q1", 5⟩ : ReviewSchedule),
      (⟨"q1", "v1", "Q", ["a", "b", "c", "d"], 0, "E", "easy"⟩ : Question),
      (⟨"v1", "u", "y1", "T", "C", 300, "th", "tr", "general"⟩ : Video)) ∈
      getDueReviews demoStorage "u" 10 :=
  (getDueReviews_characterization demoStorage "u" 10).2.1
    ⟨"r1", "u", "q1", 5⟩ (by decide) rfl (by decide)
    ⟨"q1", "v1", "Q", ["a", "b", "c", "d"], 0, "E", "easy"⟩ (by decide)
    ⟨"v1", "u", "y1", "T", "C", 300, "th", "tr", "general"⟩ (by decide)

/-- The payload `insertVideoSchema.parse` accepts in the analyze route. -/
structure InsertVideo where
  userId : String
  youtubeId : String
  title : String
  channelName : String
  duration : ℕ
  thumbnail : String
  transcript : String
  category : String
deriving DecidableEq, Repr

/-- The per-question payload the route passes to `storage.createQuestions`
(the route's `nanoid()` id is overwritten by the store's `generateId`). -/
structure InsertQuestion where
  videoId : String
  question : String
  options : List String
  correctAnswer : Int
  explanation : String
  difficulty : String
deriving DecidableEq, Repr

/-- `MemStorage.generateId`: return `currentId` as a string and increment. -/
def generateId (st : MemStorage) : String × MemStorage :=
  (toString st.currentId, { st with currentId := st.currentId + 1 })

/-- `MemStorage.createVideo`: stamp a generated id onto the payload and add
the row to the videos map. -/
def createVideo (st : MemStorage) (videoData : InsertVideo) :
    Video × MemStorage :=
  let (id, st1) := generateId st
  let video : Video :=
    { id := id, userId := videoData.userId, youtubeId := videoData.youtubeId
      title := videoData.title, channelName := videoData.channelName
      duration := videoData.duration, thumbnail := videoData.thumbnail
      transcript := videoData.transcript, category := videoData.category }
  (video, { st1 with videos := st1.videos ++ [video] })

/-- `MemStorage.createQuestions`: for each payload in order, stamp a
generated id and add the row to the questions map. -/
def createQuestions (st : MemStorage) :
    List InsertQuestion → List Question × MemStorage
  | [] => ([], st)
  | questionData :: rest =>
    let (id, st1) := generateId st
    let q : Question :=
      { id := id, videoId := questionData.videoId
        question := questionData.question, options := questionData.options
        correctAnswer := questionData.correctAnswer
        explanation := questionData.explanation
        difficulty := questionData.difficulty }
    let st2 := { st1 with questions := st1.questions ++ [q] }
    let (qs, st3) := createQuestions st2 rest
    (q :: qs, st3)

/-- The responses the analyze route can send. -/
inductive AnalyzeResponse where
  | badRequest (message : String)
  | okExisting (video : Video) (questions : List Question)
  | okCreated (video : Video) (questions : List Question)
  | serverError (message : String)
deriving DecidableEq, Repr

/-- Embedding of the `POST /api/videos/analyze` route body
(src/server/routes.ts).  The external calls are parameters: `extractVideoId`
is `youtubeService.extractVideoId`; `validationResult` the outcome of
`validateVideoForProcessing`; `generated` the outcome of
`anthropicService.generateQuestions` (`Except.error` when it throws, which
the route's catch turns into a 500 with the store untouched).  The video
metadata interpolated into `videoData` (`title`, `channelTitle`, parsed
duration, thumbnail url) comes in as the last scalar parameters. -/
def analyzeVideo (userId : String) (url : Option String)
    (extractVideoId : String → Option String)
    (validationResult : VideoValidationResult)
    (generated : Except Unit (List GeneratedQuestion))
    (videoTitle videoChannel : String) (videoDuration : ℕ)
    (thumbnailUrl : String) (st : MemStorage) :
    MemStorage × AnalyzeResponse :=
  match url with
  | none => (st, .badRequest "Video URL is required")
  | some u =>
    match extractVideoId u with
    | none => (st, .badRequest "Invalid YouTube URL")
    | some videoId =>
      let userVideos := st.videos.filter (fun v => v.userId == userId)
      match userVideos.find? (fun v => v.youtubeId == videoId) with
      | some existingVideo =>
          (st, .okExisting existingVideo (getVideoQuestions st existingVideo.id))
      | none =>
        match validationResult with
        | .invalid _ => (st, .badRequest "Video cannot be processed")
        | .valid cleanTranscript _claudeOptimizedContent category =>
          match generated with
          | .error _ => (st, .serverError "Failed to analyze video")
          | .ok generatedQuestions =>
            let videoData : InsertVideo :=
              { userId := userId, youtubeId := videoId, title := videoTitle
                channelName := videoChannel, duration := videoDuration
                thumbnail := thumbnailUrl, transcript := cleanTranscript
                category := category }
            let (video, st1) := createVideo st videoData
            let questionsData := generatedQuestions.map (fun q =>
              ({ videoId := video.id, question := q.question
                 options := q.options, correctAnswer := q.correctAnswer
                 explanation := q.explanation
                 difficulty := q.difficulty } : InsertQuestion))
            let (questions, st2) := createQuestions st1 questionsData
            (st2, .okCreated video questions)

/-- C1: the route persists the video even when the generator returns an
empty list.  On a fresh store with a valid candidate and a generator
returning `[]`, the final store holds one video row (id "1") and zero
question rows, and the route answers 200 — violating the claimed
all-or-nothing rule, which demands an unchanged store.  A generator that
throws (`Except.error`) does leave the store unchanged. -/
theorem analyzeVideo_empty_generator_persists_orphan_video :
    ((analyzeVideo "user1" (some "https://youtu.be/abc") (fun _ => some "abc")
        (.valid "transcript" "content" "general") (.ok [])
        "Title" "Channel" 300 "thumb" emptyStorage).1.videos.map
      (fun v => v.id) = ["1"]) ∧
    (analyzeVideo "user1" (some "https://youtu.be/abc") (fun _ => some "abc")
        (.valid "transcript" "content" "general") (.ok [])
        "Title" "Channel" 300 "thumb" emptyStorage).1.questions = [] ∧
    (analyzeVideo "user1" (some "https://youtu.be/abc") (fun _ => some "abc")
        (.valid "transcript" "content" "general") (.ok [])
        "Title" "Channel" 300 "thumb" emptyStorage).2 =
      .okCreated ⟨"1", "user1", "abc", "Title", "Channel", 300, "thumb",
        "transcript", "general"⟩ [] ∧
    (analyzeVideo "user1" (some "https://youtu.be/abc") (fun _ => some "abc")
        (.valid "transcript" "content" "general") (.error ())
        "Title" "Channel" 300 "thumb" emptyStorage).1 = emptyStorage := by
  refine ⟨?_, ?_, ?_, ?_⟩ <;> decide

end RQuiztube
